import Mathlib

/-!
Formal model of the activity-monitor core: event normalization and
deduplication (`DataProcessor.normalizeEvents`), the three correlation
passes (`DataProcessor.findPRLinearCorrelations`,
`DataProcessor.findSlackGithubCorrelations`,
`DataProcessor.findCrossPlatformDiscussions`), trending-topic extraction
(`MemoryService.extractTrendingTopics`) and the date-keyed rolling memory
store (`MemoryService.getContext` / `updateDailyContext` /
`getContributorProfile` / `cleanup`).

Modelling conventions:
* JavaScript strings are Lean `String`s; `toLowerCase` is modelled by
  mapping the ASCII `Char.toLower` over the characters.
* JavaScript `Map`s and plain string-keyed objects are association lists
  in insertion order, exactly mirroring `Map` iteration semantics.
* `Array.prototype.sort` (stable in JS) is modelled by the stable
  `List.insertionSort`.
* Machine numbers: timestamps and ids are `Int`, counters `Nat`,
  correlation confidences `ℚ`.
* The KV store is a function from keys to optional stored values; the
  string keys `context:YYYY-MM-DD` / `report:YYYY-MM-DD` are modelled by a
  two-constructor key type over integer day indices (calendar-date
  arithmetic of `Date.setDate` becomes integer arithmetic on days).
* `JSON.parse` composed with zod schema validation is an opaque
  parameter `decode : String → Option MemoryContext`; a `none` result
  models a parse/validation exception.
* The Text-Intelligence (LLM) response used by the second correlation
  pass is an explicit input list, shaped like its zod response schema.
-/

/-- Event source platform (the `type` enum of `ActivityEventSchema`). -/
inductive Platform
  | github
  | slack
  | linear
  | discord
deriving DecidableEq

/-- String form of a platform, as it appears inside JS template strings. -/
def platformStr : Platform → String
  | .github => "github"
  | .slack => "slack"
  | .linear => "linear"
  | .discord => "discord"

/-- Author object of an activity event. -/
structure Author where
  id : String
  name : String
  email : Option String := none
  avatar : Option String := none
deriving DecidableEq

/-- Projection of the open per-platform `metadata` map onto the keys the
correlation passes actually read (`identifier`, `issue_id`, `pr_number`,
`issue_number`); absent keys are `none`. -/
structure EventMetadata where
  identifier : Option String := none
  issue_id : Option String := none
  pr_number : Option Int := none
  issue_number : Option Int := none
deriving DecidableEq

/-- Priority enum of an activity event. -/
inductive Priority
  | low
  | medium
  | high
  | urgent
deriving DecidableEq

/-- Status enum of an activity event (`open` is spelled `opened` because
`open` is a Lean keyword). -/
inductive EvStatus
  | opened
  | closed
  | pending
  | merged
  | draft
deriving DecidableEq

/-- One activity event (`ActivityEventSchema`).  `labels`, `assignees` and
`metadata` are optional here because `normalizeEvents` defensively
defaults them; normalized events always carry `some`. -/
structure ActivityEvent where
  id : String
  type : Platform
  subtype : String
  timestamp : Int
  author : Author
  title : String
  description : Option String := none
  url : Option String := none
  metadata : Option EventMetadata := none
  priority : Priority := .medium
  status : Option EvStatus := none
  labels : Option (List String) := none
  assignees : Option (List String) := none
  repository : Option String := none
  project : Option String := none
  channel : Option String := none
deriving DecidableEq

/-- Correlation kind enum (`CorrelationSchema.type`). -/
inductive CorrelationType
  | pr_to_linear
  | slack_to_github
  | cross_platform_discussion
deriving DecidableEq

/-- One discovered correlation (`CorrelationSchema`). -/
structure Correlation where
  id : String
  events : List String
  type : CorrelationType
  confidence : ℚ
  description : String
  keywords : List String
deriving DecidableEq

/-- Lowercasing `String.prototype.toLowerCase`, modelled character-wise
with the ASCII `Char.toLower`. -/
def lowerStr (s : String) : String := String.mk (s.data.map Char.toLower)

/-- Word character of the JS regex class `\w`: ASCII letters, digits and
underscore. -/
def isWordChar (c : Char) : Bool := c.isAlphanum || c = '_'

/-- Helper for `String.prototype.includes`: does `sub` occur as a
contiguous sublist of `s`? -/
def hasInfixL (sub : List Char) : List Char → Bool
  | [] => sub.isEmpty
  | c :: rest => sub.isPrefixOf (c :: rest) || hasInfixL sub rest

/-- Model of `s.includes(sub)`. -/
def jsIncludes (s sub : String) : Bool := hasInfixL sub.data s.data

/-- Splits a character list into its maximal runs of `\w` characters
(first argument accumulates the current run in reverse). -/
def wordRunsAux (cur : List Char) : List Char → List (List Char)
  | [] => if cur.isEmpty then [] else [cur.reverse]
  | c :: rest =>
    if isWordChar c then wordRunsAux (c :: cur) rest
    else if cur.isEmpty then wordRunsAux [] rest
    else cur.reverse :: wordRunsAux [] rest

/-- Model of `text.match(/\b\w{4,}\b/g) || []`: all maximal word-character
runs of length at least 4, in order. -/
def extractWords (s : String) : List String :=
  ((wordRunsAux [] s.data).filter (fun r => 4 ≤ r.length)).map String.mk

/-- Text that the processor derives from an event, matching the template
string applied to `title` and `description`. -/
def eventText (e : ActivityEvent) : String := e.title ++ " " ++ e.description.getD ""

/-- Lowercased keyword list of one event, shared by the cross-platform
pass and trending-topic extraction. -/
def wordsOf (e : ActivityEvent) : List String := extractWords (lowerStr (eventText e))

/-- Separator class `[-\s]` of the Linear reference regex. -/
def isSepChar (c : Char) : Bool := c = '-' || c.isWhitespace

/-- Word-boundary test at the given continuation: end of input or a
non-word character. -/
def boundaryOk : List Char → Bool
  | [] => true
  | c :: _ => !isWordChar c

/-- Backtracking for the greedy `\d+` followed by `\b`: try the `k`
longest digit prefixes, longest first. -/
def tryDigitSuffix : Nat → List Char → Option (List Char × List Char)
  | 0, _ => none
  | k + 1, rest =>
    if boundaryOk (rest.drop (k + 1)) then some (rest.take (k + 1), rest.drop (k + 1))
    else tryDigitSuffix k rest

/-- Matching of the regex fragment `(\d+|\w{8})\b`: greedy digits with
backtracking first, then exactly eight word characters. -/
def matchNumOrWord8 (rest : List Char) : Option (List Char × List Char) :=
  match tryDigitSuffix (rest.takeWhile Char.isDigit).length rest with
  | some r => some r
  | none =>
    if (rest.take 8).length = 8 && (rest.take 8).all isWordChar && boundaryOk (rest.drop 8) then
      some (rest.take 8, rest.drop 8)
    else none

/-- Matching of `[-\s]?(\d+|\w{8})\b`: the optional separator is greedy but
backtracks when the remainder fails. -/
def matchSepTail : List Char → Option (List Char × List Char)
  | [] => none
  | c :: rest2 =>
    if isSepChar c then
      match matchNumOrWord8 rest2 with
      | some (cons, rem) => some (c :: cons, rem)
      | none => matchNumOrWord8 (c :: rest2)
    else matchNumOrWord8 (c :: rest2)

/-- Matching of `(lin|linear)[-\s]?(\d+|\w{8})\b` at the current position
(the scanned text is already lowercased, which implements the `i` flag);
the alternation tries `lin` first and falls back to `linear`, as a JS
regex engine does. -/
def matchLinAt : List Char → Option (List Char × List Char)
  | 'l' :: 'i' :: 'n' :: rest =>
    (match matchSepTail rest with
     | some (cons, rem) => some ('l' :: 'i' :: 'n' :: cons, rem)
     | none =>
       match rest with
       | 'e' :: 'a' :: 'r' :: rest2 =>
         (match matchSepTail rest2 with
          | some (cons, rem) => some ('l' :: 'i' :: 'n' :: 'e' :: 'a' :: 'r' :: cons, rem)
          | none => none)
       | _ => none)
  | _ => none

/-- Global scan for `/\b(lin|linear)[-\s]?(\d+|\w{8})\b/gi`.  The boolean
tracks whether the previous character was a word character (for the
leading `\b`); the fuel is an upper bound on scan steps, each of which
consumes at least one character. -/
def scanLinRefsAux : Nat → Bool → List Char → List String
  | 0, _, _ => []
  | _ + 1, _, [] => []
  | fuel + 1, prevWord, c :: rest =>
    if prevWord then scanLinRefsAux fuel (isWordChar c) rest
    else
      match matchLinAt (c :: rest) with
      | some (m, rem) => String.mk m :: scanLinRefsAux fuel true rem
      | none => scanLinRefsAux fuel (isWordChar c) rest

/-- Model of `prText.match(/\b(lin|linear)[-\s]?(\d+|\w{8})\b/gi) || []`. -/
def extractLinearRefs (s : String) : List String :=
  scanLinRefsAux s.data.length false s.data

/-- Literal `linear.app/` searched for by the URL regex. -/
def linearAppLit : List Char := "linear.app/".data

/-- Global scan for `/linear\.app\/[^\s]+/gi` (no word boundaries; the
greedy `[^\s]+` takes every following non-whitespace character). -/
def scanLinearUrlsAux : Nat → List Char → List String
  | 0, _ => []
  | _ + 1, [] => []
  | fuel + 1, c :: rest =>
    if linearAppLit.isPrefixOf (c :: rest) then
      let after := (c :: rest).drop linearAppLit.length
      let tail := after.takeWhile (fun ch => !ch.isWhitespace)
      if tail.isEmpty then scanLinearUrlsAux fuel rest
      else String.mk (linearAppLit ++ tail) :: scanLinearUrlsAux fuel (after.drop tail.length)
    else scanLinearUrlsAux fuel rest

/-- Model of `prText.match(/linear\.app\/[^\s]+/gi) || []`. -/
def extractLinearUrls (s : String) : List String :=
  scanLinearUrlsAux s.data.length s.data

/-- JS truthiness of a possibly-absent string: `undefined`, `null` and the
empty string are falsy. -/
def strTruthy (o : Option String) : Bool :=
  match o with
  | some s => !s.isEmpty
  | none => false

/-- Model of the JS expression `a || b` on possibly-absent strings: the
right operand is returned unchanged when the left is falsy. -/
def jsOrStrOpt (a b : Option String) : Option String := if strTruthy a then a else b

/-- Value of `linearEvent.metadata?.identifier || linearEvent.metadata?.issue_id`. -/
def linearIdOpt (e : ActivityEvent) : Option String :=
  match e.metadata with
  | none => none
  | some m => jsOrStrOpt m.identifier m.issue_id

/-- Value of `linearId?.toLowerCase() || ''`, used in the short-code
substring check. -/
def linearIdLower (e : ActivityEvent) : String := ((linearIdOpt e).map lowerStr).getD ""

/-- Value of `linearId || ''` (not lowercased), used in the URL check. -/
def linearIdRaw (e : ActivityEvent) : String := (linearIdOpt e).getD ""

/-- Rendering of `${linearId}` inside a template string: an absent value
prints as `undefined`. -/
def linearIdDisplay (e : ActivityEvent) : String :=
  match linearIdOpt e with
  | some s => s
  | none => "undefined"

/-- Rendering of an optional number inside a template string. -/
def showOptInt : Option Int → String
  | some n => toString n
  | none => "undefined"

/-- Check `isReferenced` of the identifier-matching pass: some extracted
short-code reference contains the (lowercased) tracker id, or some
extracted URL contains the raw tracker id or the tracker event id. -/
def isReferencedBy (linearRefs linearUrls : List String) (linearEvent : ActivityEvent) : Bool :=
  linearRefs.any (fun ref => jsIncludes (lowerStr ref) (linearIdLower linearEvent))
    || linearUrls.any (fun url =>
        jsIncludes url (linearIdRaw linearEvent) || jsIncludes url linearEvent.id)

/-- Correlation record pushed by the identifier-matching pass. -/
def mkPrLinearCorrelation (prEvent linearEvent : ActivityEvent) (refs urls : List String) :
    Correlation :=
  { id := "pr_linear_" ++ prEvent.id ++ "_" ++ linearEvent.id
    events := [prEvent.id, linearEvent.id]
    type := .pr_to_linear
    confidence := 0.8
    description := "PR " ++ showOptInt (prEvent.metadata.bind (fun m => m.pr_number))
      ++ " relates to Linear issue " ++ linearIdDisplay linearEvent
    keywords := refs ++ urls }

/-- Model of `DataProcessor.findPRLinearCorrelations`: for every GitHub
event whose subtype contains `pr`, extract Linear references from its
lowercased title+description and pair it with every Linear event whose
identifier matches. -/
def findPRLinearCorrelations (githubEvents linearEvents : List ActivityEvent) :
    List Correlation :=
  (githubEvents.filter (fun e => jsIncludes e.subtype "pr")).flatMap (fun prEvent =>
    let refs := extractLinearRefs (lowerStr (eventText prEvent))
    let urls := extractLinearUrls (lowerStr (eventText prEvent))
    linearEvents.filterMap (fun linearEvent =>
      if isReferencedBy refs urls linearEvent then
        some (mkPrLinearCorrelation prEvent linearEvent refs urls)
      else none))

/-- Reference type enum of the Text-Intelligence response schema. -/
inductive GithubRefType
  | pr
  | issue
  | commit
  | repository
deriving DecidableEq

/-- String form of a reference type inside the correlation description. -/
def githubRefTypeStr : GithubRefType → String
  | .pr => "pr"
  | .issue => "issue"
  | .commit => "commit"
  | .repository => "repository"

/-- One entry of the zod-validated Text-Intelligence response used by
`findSlackGithubCorrelations`; the schema bounds `confidence` to `[0,1]`. -/
structure SlackGithubRef where
  slack_event_id : String
  github_reference : String
  reference_type : GithubRefType
  confidence : ℚ
  extracted_text : String
deriving DecidableEq

/-- Matching of one response reference against one GitHub event, following
the `switch` on `reference_type` (note the JS truthiness tests: a zero
number and an empty repository name are falsy). -/
def matchesGithubRef (r : SlackGithubRef) (g : ActivityEvent) : Bool :=
  match r.reference_type with
  | .pr =>
    (match g.metadata.bind (fun m => m.pr_number) with
     | some n => n != 0 && jsIncludes r.github_reference (toString n)
     | none => false)
  | .issue =>
    (match g.metadata.bind (fun m => m.issue_number) with
     | some n => n != 0 && jsIncludes r.github_reference (toString n)
     | none => false)
  | .repository =>
    (match g.repository with
     | some repo => !repo.isEmpty && jsIncludes (lowerStr r.github_reference) (lowerStr repo)
     | none => false)
  | .commit => false

/-- Model of `DataProcessor.findSlackGithubCorrelations`, with the
Text-Intelligence response passed in explicitly.  With no Slack events the
pass returns early before consulting the response. -/
def findSlackGithubCorrelations (slackEvents githubEvents : List ActivityEvent)
    (response : List SlackGithubRef) : List Correlation :=
  if slackEvents.isEmpty then []
  else
    response.flatMap (fun r =>
      (githubEvents.filter (fun g => matchesGithubRef r g)).map (fun g =>
        { id := "slack_github_" ++ r.slack_event_id ++ "_" ++ g.id
          events := [r.slack_event_id, g.id]
          type := .slack_to_github
          confidence := r.confidence
          description := "Slack discussion references " ++ githubRefTypeStr r.reference_type
            ++ ": " ++ r.github_reference
          keywords := [r.extracted_text] }))

/-- Generic model of the JS `Map`/object upsert pattern
`if (!m.has(k)) m.set(k, dflt); mutate m.get(k)`: association list in
insertion order, first matching key updated in place, new keys appended. -/
def jsMapStep {P V : Type} (key : P → String) (dflt : P → V) (upd : P → V → V) :
    List (String × V) → P → List (String × V)
  | [], p => [(key p, upd p (dflt p))]
  | (k, v) :: rest, p =>
    if k = key p then (k, upd p v) :: rest
    else (k, v) :: jsMapStep key dflt upd rest p

/-- Lookup in the association-list model of a JS `Map` (`m.get(k)`). -/
def jsMapFind {V : Type} : List (String × V) → String → Option V
  | [], _ => none
  | (k, v) :: rest, w => if k = w then some v else jsMapFind rest w

/-- Assignment `obj[k] = v` on a string-keyed object. -/
def jsMapSet {V : Type} : List (String × V) → String → V → List (String × V)
  | [], k, v => [(k, v)]
  | (k0, v0) :: rest, k, v =>
    if k0 = k then (k0, v) :: rest else (k0, v0) :: jsMapSet rest k v

/-- Dedup key of `normalizeEvents`, the template string
`type + "_" + subtype + "_" + author.id + "_" + timestamp`. -/
def jsEventKey (e : ActivityEvent) : String :=
  platformStr e.type ++ "_" ++ e.subtype ++ "_" ++ e.author.id ++ "_" ++ toString e.timestamp

/-- Defaulting applied when an event is first inserted into the dedup map:
missing labels/assignees/metadata become empty. -/
def normalizeDefaults (e : ActivityEvent) : ActivityEvent :=
  { e with
    labels := some (e.labels.getD [])
    assignees := some (e.assignees.getD [])
    metadata := some (e.metadata.getD {}) }

/-- Dedup map of `normalizeEvents`: insert-if-absent keyed by
`jsEventKey`, first occurrence wins. -/
def uniqueEventsMap (events : List ActivityEvent) : List (String × ActivityEvent) :=
  events.foldl (jsMapStep jsEventKey normalizeDefaults (fun _ v => v)) []

/-- Descending-timestamp order used by the final sort of
`normalizeEvents` (comparator `(a, b) => b.timestamp - a.timestamp`). -/
def tsDesc (a b : ActivityEvent) : Prop := b.timestamp ≤ a.timestamp

instance : DecidableRel tsDesc := fun a b => inferInstanceAs (Decidable (b.timestamp ≤ a.timestamp))

instance : IsTotal ActivityEvent tsDesc := ⟨fun a b => le_total b.timestamp a.timestamp⟩

instance : IsTrans ActivityEvent tsDesc := ⟨fun _ _ _ h1 h2 => le_trans h2 h1⟩

/-- Model of `DataProcessor.normalizeEvents`: dedup by string key (first
occurrence wins, defaults applied), then stable sort by timestamp
descending. -/
def normalizeEvents (events : List ActivityEvent) : List ActivityEvent :=
  List.insertionSort tsDesc ((uniqueEventsMap events).map Prod.snd)

/-- One occurrence pair `(event, word)` per keyword occurrence, in
traversal order; flattening of the two nested loops of
`findCrossPlatformDiscussions`. -/
def keywordOccurrences (events : List ActivityEvent) : List (ActivityEvent × String) :=
  events.flatMap (fun e => (wordsOf e).map (fun w => (e, w)))

/-- Keyword step of `findCrossPlatformDiscussions`: ensure the entry
exists, then push the event (once per occurrence of the word). -/
def addKeywordOccurrence (m : List (String × List ActivityEvent)) (e : ActivityEvent)
    (w : String) : List (String × List ActivityEvent) :=
  jsMapStep (fun p : ActivityEvent × String => p.2) (fun _ => []) (fun p es => es ++ [p.1]) m (e, w)

/-- The `eventsByKeywords` map of `findCrossPlatformDiscussions`. -/
def keywordIndex (events : List ActivityEvent) : List (String × List ActivityEvent) :=
  events.foldl (fun m e => (wordsOf e).foldl (fun m w => addKeywordOccurrence m e w) m) []

/-- Model of `new Set(relatedEvents.map(e => e.type))` in insertion order. -/
def platformsOfEvents (es : List ActivityEvent) : List Platform :=
  es.foldl (fun acc e => if e.type ∈ acc then acc else acc ++ [e.type]) []

/-- Rendering of `Array.from(platforms).join(', ')`. -/
def joinPlatforms (ps : List Platform) : String :=
  String.intercalate ", " (ps.map platformStr)

/-- Correlation record pushed by the cross-platform pass (`now` stands for
the impure `Date.now()` in the id). -/
def mkCrossPlatformCorrelation (now : Int) (keyword : String)
    (relatedEvents : List ActivityEvent) : Correlation :=
  { id := "cross_platform_" ++ keyword ++ "_" ++ toString now
    events := relatedEvents.map (fun e => e.id)
    type := .cross_platform_discussion
    confidence := min 0.9 ((relatedEvents.length : ℚ) / 10)
    description := "Cross-platform discussion about \"" ++ keyword ++ "\" spanning "
      ++ joinPlatforms (platformsOfEvents relatedEvents)
    keywords := [keyword] }

/-- Emission threshold of the cross-platform pass: at least two distinct
platforms and at least three entries in the occurrence list. -/
def crossPlatformThreshold (p : String × List ActivityEvent) : Bool :=
  2 ≤ (platformsOfEvents p.2).length && 3 ≤ p.2.length

/-- Model of `DataProcessor.findCrossPlatformDiscussions`: build the
keyword index, emit one correlation per passing keyword in insertion
order, and truncate to the first 10. -/
def findCrossPlatformDiscussions (now : Int) (events : List ActivityEvent) :
    List Correlation :=
  (((keywordIndex events).filter crossPlatformThreshold).map
    (fun p => mkCrossPlatformCorrelation now p.1 p.2)).take 10

/-- Model of `DataProcessor.findCorrelations` on the happy path: the three
passes concatenated, pass 2 parameterized by the Text-Intelligence
response and pass 3 by `Date.now()`. -/
def findCorrelations (events : List ActivityEvent) (response : List SlackGithubRef)
    (now : Int) : List Correlation :=
  findPRLinearCorrelations (events.filter (fun e => e.type == Platform.github))
      (events.filter (fun e => e.type == Platform.linear))
    ++ findSlackGithubCorrelations (events.filter (fun e => e.type == Platform.slack))
      (events.filter (fun e => e.type == Platform.github)) response
    ++ findCrossPlatformDiscussions now events

/-- Contributor activity patterns (`ContributorProfileSchema.activity_patterns`). -/
structure ActivityPatterns where
  most_active_hours : List Nat
  preferred_platforms : List String
  avg_daily_events : ℚ
deriving DecidableEq

/-- Contributor profile (`ContributorProfileSchema`); `platforms` is the
platform-to-external-id map. -/
structure ContributorProfile where
  id : String
  name : String
  platforms : List (Platform × String)
  activity_patterns : ActivityPatterns
  expertise_areas : List String
  recent_focus : List String
deriving DecidableEq

/-- Action item kind enum (`ActionItemSchema.type`). -/
inductive ActionItemType
  | review_needed
  | blocked
  | overdue
  | requires_attention
deriving DecidableEq

/-- One action item (`ActionItemSchema`). -/
structure ActionItem where
  id : String
  type : ActionItemType
  title : String
  description : Option String := none
  url : Option String := none
  assignee : Option String := none
  priority : Priority
  created_at : Int
  platform : Platform
  repository : Option String := none
  project : Option String := none
deriving DecidableEq

/-- Summary statistics (`ProcessedDataSchema.summary_stats`); the two
count records are string-keyed association lists. -/
structure SummaryStats where
  total_events : Nat
  events_by_platform : List (String × Nat)
  events_by_type : List (String × Nat)
  unique_contributors : Nat
  repositories_active : Nat
  projects_active : Nat
deriving DecidableEq

/-- Assembled processing result (`ProcessedDataSchema`). -/
structure ProcessedData where
  events : List ActivityEvent
  correlations : List Correlation
  contributors : List ContributorProfile
  action_items : List ActionItem
  summary_stats : SummaryStats
deriving DecidableEq

/-- One trending-topic entry of the memory context. -/
structure TrendingTopic where
  keyword : String
  frequency : Nat
  contexts : List Platform
deriving DecidableEq

/-- Model of `entry.contexts.add(ty)` on the insertion-ordered set of
platforms. -/
def addPlat (cs : List Platform) (ty : Platform) : List Platform :=
  if ty ∈ cs then cs else cs ++ [ty]

/-- Per-occurrence mutation of a `keywords` map entry:
`entry.frequency++; entry.contexts.add(event.type)`. -/
def trendFoldStep (nv : Nat × List Platform) (p : Platform × String) : Nat × List Platform :=
  (nv.1 + 1, addPlat nv.2 p.1)

/-- Keyword step of `extractTrendingTopics`: ensure the entry exists, then
increment the frequency and add the platform to the context set. -/
def addTrendWord (m : List (String × Nat × List Platform)) (ty : Platform) (w : String) :
    List (String × Nat × List Platform) :=
  jsMapStep (fun p : Platform × String => p.2) (fun _ => (0, []))
    (fun p nv => trendFoldStep nv p) m (ty, w)

/-- One occurrence pair `(platform, word)` per keyword occurrence, in
traversal order; flattening of the two nested loops of
`extractTrendingTopics`. -/
def trendOccurrences (events : List ActivityEvent) : List (Platform × String) :=
  events.flatMap (fun e => (wordsOf e).map (fun w => (e.type, w)))

/-- The `keywords` map of `MemoryService.extractTrendingTopics`. -/
def trendIndex (events : List ActivityEvent) : List (String × Nat × List Platform) :=
  events.foldl (fun m e => (wordsOf e).foldl (fun m w => addTrendWord m e.type w) m) []

/-- Descending-frequency order used by the trending-topic sort (comparator
`(a, b) => b[1].frequency - a[1].frequency`). -/
def freqDesc (a b : String × Nat × List Platform) : Prop := b.2.1 ≤ a.2.1

instance : DecidableRel freqDesc := fun a b => inferInstanceAs (Decidable (b.2.1 ≤ a.2.1))

instance : IsTotal (String × Nat × List Platform) freqDesc := ⟨fun a b => le_total b.2.1 a.2.1⟩

instance : IsTrans (String × Nat × List Platform) freqDesc := ⟨fun _ _ _ h1 h2 => le_trans h2 h1⟩

/-- Model of `MemoryService.extractTrendingTopics`: count keyword
occurrences over the whole event set, keep frequencies above 2, sort
descending by frequency (stable), keep the top 10. -/
def extractTrendingTopics (data : ProcessedData) : List TrendingTopic :=
  ((List.insertionSort freqDesc ((trendIndex data.events).filter (fun p => 2 < p.2.1))).take
    10).map (fun p => { keyword := p.1, frequency := p.2.1, contexts := p.2.2 })

/-- Velocity metrics of the memory context. -/
structure VelocityMetrics where
  daily_pr_count : Nat
  daily_issue_count : Nat
  avg_review_time_hours : ℚ
  deployment_frequency : Nat
deriving DecidableEq

/-- One action-items-history entry; the date is the integer day index of
the `YYYY-MM-DD` date key. -/
structure HistoryEntry where
  date : Int
  resolved_count : Nat
  new_count : Nat
  overdue_count : Nat
deriving DecidableEq

/-- Per-date memory context (`MemoryContextSchema`), with the two
string-keyed records as association lists. -/
structure MemoryContext where
  date : Int
  contributor_profiles : List (String × ContributorProfile)
  project_relationships : List (String × List String)
  trending_topics : List TrendingTopic
  velocity_metrics : VelocityMetrics
  action_items_history : List HistoryEntry
deriving DecidableEq

/-- KV key namespaces `context:<YYYY-MM-DD>` and `report:<YYYY-MM-DD>`,
with calendar dates as integer day indices. -/
inductive KVKey
  | context (day : Int)
  | report (day : Int)
deriving DecidableEq

/-- The KV store backing the memory service: opaque serialized values. -/
def KVStore : Type := KVKey → Option String

/-- Effect of a successful `kv.delete(k)`. -/
def kvDelete (store : KVStore) (k : KVKey) : KVStore :=
  fun q => if q = k then none else store q

/-- Model of `MemoryService.getContext`.  Returns the parsed context, the
store after any self-healing delete, and the list of keys a delete was
issued for.  `decode` models `JSON.parse` composed with
`MemoryContextSchema.parse` (`none` = exception); `deleteFails` models the
outcome of the inner `kv.delete`, whose failure is swallowed.  The check
`if (!data) return null` makes an absent or empty-string value return
absent without any delete. -/
def getContext (decode : String → Option MemoryContext) (deleteFails : Bool)
    (store : KVStore) (day : Int) : Option MemoryContext × KVStore × List KVKey :=
  match store (KVKey.context day) with
  | none => (none, store, [])
  | some data =>
    if data = "" then (none, store, [])
    else
      match decode data with
      | some ctx => (some ctx, store, [])
      | none =>
        (none, if deleteFails then store else kvDelete store (KVKey.context day),
          [KVKey.context day])

/-- Model of `MemoryService.getRecentDates`: today and the previous
`days - 1` calendar days, most recent first. -/
def getRecentDates (now : Int) (days : Nat) : List Int :=
  (List.range days).map (fun i => now - i)

/-- Scanning loop of `getContributorProfile`: read each date's context in
order (threading the store through any self-healing deletes) and return
the first profile found for the contributor id. -/
def scanForProfile (decode : String → Option MemoryContext) (deleteFails : Bool) :
    KVStore → List Int → String → Option ContributorProfile
  | _, [], _ => none
  | store, d :: ds, cid =>
    let r := getContext decode deleteFails store d
    match r.1 with
    | some ctx =>
      (match jsMapFind ctx.contributor_profiles cid with
       | some p => some p
       | none => scanForProfile decode deleteFails r.2.1 ds cid)
    | none => scanForProfile decode deleteFails r.2.1 ds cid

/-- Model of `MemoryService.getContributorProfile`: scan the 7 most recent
calendar dates, most recent first. -/
def getContributorProfile (decode : String → Option MemoryContext) (deleteFails : Bool)
    (store : KVStore) (now : Int) (contributorId : String) : Option ContributorProfile :=
  scanForProfile decode deleteFails store (getRecentDates now 7) contributorId

/-- Model of `MemoryService.cleanup`: delete the context stored for
exactly 7 days before now; a failing delete is caught and leaves the
store unchanged. -/
def cleanup (deleteFails : Bool) (store : KVStore) (now : Int) : KVStore :=
  if deleteFails then store else kvDelete store (KVKey.context (now - 7))

/-- Value-level view of the `context:` namespace used to model
`updateDailyContext`: serialization (`JSON.stringify` on write,
`JSON.parse` + schema validation on read) round-trips on every value the
service itself writes, so it is modelled as the identity here. -/
def VStore : Type := Int → Option MemoryContext

/-- Model of `MemoryService.createEmptyContext`. -/
def createEmptyContext (dateKey : Int) : MemoryContext :=
  { date := dateKey
    contributor_profiles := []
    project_relationships := []
    trending_topics := []
    velocity_metrics :=
      { daily_pr_count := 0
        daily_issue_count := 0
        avg_review_time_hours := 0
        deployment_frequency := 0 }
    action_items_history := [] }

/-- Edge insertion of `updateProjectRelationships`: create the key with an
empty list when absent, then push the value unless already present. -/
def addRelationship (rel : List (String × List String)) (k v : String) :
    List (String × List String) :=
  let cur := (jsMapFind rel k).getD []
  if v ∈ cur then rel else jsMapSet rel k (cur ++ [v])

/-- Model of `MemoryService.updateProjectRelationships` (both edges use JS
truthiness, so empty-string fields do not produce edges). -/
def updateProjectRelationships (ctx : MemoryContext) (data : ProcessedData) : MemoryContext :=
  data.events.foldl (fun c e =>
    let c1 :=
      if strTruthy e.repository && strTruthy e.project then
        { c with project_relationships :=
            addRelationship c.project_relationships (e.project.getD "") (e.repository.getD "") }
      else c
    if strTruthy e.repository && strTruthy e.channel then
      { c1 with project_relationships :=
          (addRelationship c1.project_relationships ("repo:" ++ e.repository.getD "")
            (e.channel.getD "")) }
    else c1) ctx

/-- Model of `MemoryService.calculateAvgReviewTime`: 24 when the batch has
any GitHub PR event, else 0. -/
def calculateAvgReviewTime (data : ProcessedData) : ℚ :=
  if (data.events.filter (fun e => e.type == Platform.github && jsIncludes e.subtype "pr")).isEmpty
  then 0 else 24

/-- Lookup `m[k] || 0` in a subtype-count record. -/
def lookupCount (m : List (String × Nat)) (k : String) : Nat := (jsMapFind m k).getD 0

/-- History entry appended by `updateDailyContext`. -/
def mkHistoryEntry (data : ProcessedData) (dateKey : Int) : HistoryEntry :=
  { date := dateKey
    resolved_count :=
      (data.action_items.filter (fun i => i.type == ActionItemType.review_needed)).length
    new_count := data.action_items.length
    overdue_count :=
      (data.action_items.filter (fun i => i.type == ActionItemType.overdue)).length }

/-- Model of `Array.prototype.slice(-7)`: the last seven elements. -/
def jsSliceLast7 {α : Type} (l : List α) : List α := l.drop (l.length - 7)

/-- Model of `MemoryService.updateDailyContext` (value level): read or
create the date's context, merge contributor profiles, rebuild
relationship edges, recompute trending topics and velocity metrics,
append one history entry, trim the history to the last 7, write back. -/
def updateDailyContext (vstore : VStore) (data : ProcessedData) (reportDate : Int) : VStore :=
  let dateKey := reportDate
  let context := (vstore dateKey).getD (createEmptyContext dateKey)
  let ctx1 := data.contributors.foldl
    (fun c p => { c with contributor_profiles := jsMapSet c.contributor_profiles p.id p }) context
  let ctx2 := updateProjectRelationships ctx1 data
  let ctx3 := { ctx2 with trending_topics := extractTrendingTopics data }
  let ctx4 := { ctx3 with velocity_metrics :=
    { daily_pr_count := lookupCount data.summary_stats.events_by_type "pr_opened"
      daily_issue_count := lookupCount data.summary_stats.events_by_type "issue_opened"
      avg_review_time_hours := calculateAvgReviewTime data
      deployment_frequency := lookupCount data.summary_stats.events_by_type "deployment" } }
  let hist := ctx4.action_items_history ++ [mkHistoryEntry data dateKey]
  let ctx5 := { ctx4 with action_items_history := jsSliceLast7 hist }
  fun d => if d = dateKey then some ctx5 else vstore d

/-- Sequential composition of `updateDailyContext` calls. -/
def runUpdates (vstore : VStore) (calls : List (ProcessedData × Int)) : VStore :=
  calls.foldl (fun st c => updateDailyContext st c.1 c.2) vstore

/-- Keys of an association-list map, in insertion order. -/
def jsMapKeys {V : Type} (m : List (String × V)) : List String := m.map Prod.fst

/-- Context read as `getContributorProfile` performs it for a single date,
without threading the store: parse the date's context and look the
contributor up in it. -/
def profileAt (decode : String → Option MemoryContext) (deleteFails : Bool)
    (store : KVStore) (day : Int) (contributorId : String) : Option ContributorProfile :=
  (getContext decode deleteFails store day).1.bind
    (fun ctx => jsMapFind ctx.contributor_profiles contributorId)

/-- Concrete GitHub PR event whose description references the Linear issue
`LIN-42`. -/
def prEventLin (gid : String) (ts : Int) : ActivityEvent :=
  { id := gid
    type := .github
    subtype := "pr_opened"
    timestamp := ts
    author := { id := "u1", name := "User One" }
    title := "Fix bug"
    description := some "fixes LIN-42" }

/-- Concrete Linear event with identifier `LIN-42`. -/
def linearEventLin (lid : String) (ts : Int) : ActivityEvent :=
  { id := lid
    type := .linear
    subtype := "issue_created"
    timestamp := ts
    author := { id := "u2", name := "User Two" }
    title := "Tracker issue"
    metadata := some { identifier := some "LIN-42" } }

/-- Concrete GitHub PR event whose description contains the literal
reference `fixes TRK-42` of spec Scenario B. -/
def prEventTrk : ActivityEvent :=
  { id := "g1"
    type := .github
    subtype := "pr_opened"
    timestamp := 0
    author := { id := "u1", name := "User One" }
    title := "Fix bug"
    description := some "fixes TRK-42" }

/-- Concrete tracker event whose metadata identifier is `TRK-42`. -/
def linearEventTrk : ActivityEvent :=
  { id := "l1"
    type := .linear
    subtype := "issue_created"
    timestamp := 0
    author := { id := "u2", name := "User Two" }
    title := "Tracker issue"
    metadata := some { identifier := some "TRK-42" } }

/-- Concrete Linear event with no `identifier` and no `issue_id` in its
metadata. -/
def linearEventNoId : ActivityEvent :=
  { id := "l9"
    type := .linear
    subtype := "issue_created"
    timestamp := 0
    author := { id := "u2", name := "User Two" }
    title := "Tracker issue"
    metadata := some {} }

/-- Event whose dedup tuple is `(github, "a_b", "c", 0)`. -/
def evSubA : ActivityEvent :=
  { id := "e1"
    type := .github
    subtype := "a_b"
    timestamp := 0
    author := { id := "c", name := "C" }
    title := "first" }

/-- Event whose dedup tuple is `(github, "a", "b_c", 0)`, distinct from
that of `evSubA` but with the same concatenated string key. -/
def evSubB : ActivityEvent :=
  { id := "e2"
    type := .github
    subtype := "a"
    timestamp := 0
    author := { id := "b_c", name := "B" }
    title := "second" }

/-- GitHub event mentioning the keyword `alpha` twice in its title. -/
def evAlpha1 : ActivityEvent :=
  { id := "a1"
    type := .github
    subtype := "x"
    timestamp := 0
    author := { id := "u1", name := "U" }
    title := "alpha alpha" }

/-- Slack event mentioning the keyword `alpha` once. -/
def evAlpha2 : ActivityEvent :=
  { id := "a2"
    type := .slack
    subtype := "y"
    timestamp := 0
    author := { id := "u2", name := "V" }
    title := "alpha" }

/-- Three events each mentioning `deployment`, on three platforms. -/
def evDep1 : ActivityEvent :=
  { id := "d1"
    type := .github
    subtype := "pr_opened"
    timestamp := 3
    author := { id := "u1", name := "U" }
    title := "deployment ready" }

/-- Second `deployment` event (Slack). -/
def evDep2 : ActivityEvent :=
  { id := "d2"
    type := .slack
    subtype := "message_sent"
    timestamp := 2
    author := { id := "u2", name := "V" }
    title := "deployment done" }

/-- Third `deployment` event (Linear). -/
def evDep3 : ActivityEvent :=
  { id := "d3"
    type := .linear
    subtype := "issue_created"
    timestamp := 1
    author := { id := "u3", name := "W" }
    title := "deployment blocked" }

/-- Processed data wrapping the three `deployment` events. -/
def depData : ProcessedData :=
  { events := [evDep1, evDep2, evDep3]
    correlations := []
    contributors := []
    action_items := []
    summary_stats :=
      { total_events := 3
        events_by_platform := []
        events_by_type := []
        unique_contributors := 3
        repositories_active := 0
        projects_active := 0 } }

/-- Decoder that rejects every stored value, modelling a store whose
values all fail JSON parsing. -/
def decodeNone : String → Option MemoryContext := fun _ => none

/-- Store holding the empty string under the context key for day 0. -/
def storeEmptyVal : KVStore := fun k => if k = KVKey.context 0 then some "" else none

/-- Store holding a non-empty unparseable value under the context key for
day 0. -/
def storeBadVal : KVStore := fun k => if k = KVKey.context 0 then some "bad" else none

/-- Memory context whose action-items history already has 8 entries. -/
def ctx8 : MemoryContext :=
  { date := 0
    contributor_profiles := []
    project_relationships := []
    trending_topics := []
    velocity_metrics :=
      { daily_pr_count := 0
        daily_issue_count := 0
        avg_review_time_hours := 0
        deployment_frequency := 0 }
    action_items_history := (List.range 8).map (fun i => ⟨(i : Int), 0, 0, 0⟩) }

/-- Value-level store holding `ctx8` under day 0. -/
def vstore8 : VStore := fun d => if d = 0 then some ctx8 else none

/-- Empty processed data. -/
def emptyPD : ProcessedData :=
  { events := []
    correlations := []
    contributors := []
    action_items := []
    summary_stats :=
      { total_events := 0
        events_by_platform := []
        events_by_type := []
        unique_contributors := 0
        repositories_active := 0
        projects_active := 0 } }

/-- Minimal contributor profile for the recall scenario. -/
def profAlice : ContributorProfile :=
  { id := "alice"
    name := "Alice"
    platforms := []
    activity_patterns := { most_active_hours := [], preferred_platforms := [], avg_daily_events := 0 }
    expertise_areas := []
    recent_focus := [] }

/-- Context for day 5 holding Alice's profile. -/
def ctxAlice : MemoryContext :=
  { date := 5
    contributor_profiles := [("alice", profAlice)]
    project_relationships := []
    trending_topics := []
    velocity_metrics :=
      { daily_pr_count := 0
        daily_issue_count := 0
        avg_review_time_hours := 0
        deployment_frequency := 0 }
    action_items_history := [] }

/-- Decoder recognizing the single serialized form used in the recall
scenario. -/
def decodeAlice : String → Option MemoryContext := fun s => if s = "ctx5" then some ctxAlice else none

/-- Store with Alice's context stored under day 5 only. -/
def storeAlice : KVStore := fun k => if k = KVKey.context 5 then some "ctx5" else none

/-- Store holding one old context value under day 1. -/
def storeOld : KVStore := fun k => if k = KVKey.context 1 then some "x" else none


/-! Generic lemmas about the association-list model of JS maps. -/

theorem hasInfixL_nil_left (l : List Char) : hasInfixL [] l = true := by
  cases l <;> rfl

/-- Claim-independent fact used by the identifier pass: `includes('')` is
always true. -/
theorem jsIncludes_empty (s : String) : jsIncludes s "" = true :=
  hasInfixL_nil_left s.data

theorem jsMapFind_jsMapStep {P V : Type} (key : P → String) (dflt : P → V) (upd : P → V → V)
    (m : List (String × V)) (p : P) (w : String) :
    jsMapFind (jsMapStep key dflt upd m p) w =
      if w = key p then some (upd p ((jsMapFind m w).getD (dflt p))) else jsMapFind m w := by
  induction m with
  | nil =>
    simp only [jsMapStep, jsMapFind]
    by_cases h : w = key p
    · simp [h]
    · have h2 : ¬ key p = w := fun e => h e.symm
      simp [h, h2]
  | cons kv rest ih =>
    obtain ⟨k, v⟩ := kv
    by_cases hk : k = key p
    · simp only [jsMapStep, if_pos hk, jsMapFind]
      by_cases hw : k = w
      · have h1 : w = key p := hw ▸ hk
        simp [hw, h1]
      · by_cases h1 : w = key p
        · exact absurd (hk.trans h1.symm) hw
        · simp [hw, h1]
    · simp only [jsMapStep, if_neg hk, jsMapFind]
      by_cases hw : k = w
      · have h1 : ¬ w = key p := fun e => hk (hw.trans e)
        simp [hw, h1]
      · simp [hw, ih]

theorem jsMapFind_foldl {P V : Type} (key : P → String) (dflt : P → V) (upd : P → V → V)
    (ps : List P) (m : List (String × V)) (w : String) :
    jsMapFind (ps.foldl (jsMapStep key dflt upd) m) w =
      (ps.filter (fun p => key p == w)).foldl
        (fun o p => some (upd p (o.getD (dflt p)))) (jsMapFind m w) := by
  induction ps generalizing m with
  | nil => rfl
  | cons p ps ih =>
    rw [List.foldl_cons, ih, List.filter_cons]
    by_cases h : key p = w
    · have hb : (key p == w) = true := by simp [h]
      rw [hb, if_pos rfl, List.foldl_cons, jsMapFind_jsMapStep]
      rw [if_pos h.symm]
    · have hb : (key p == w) = false := by simp [h]
      rw [hb]
      simp only [Bool.false_eq_true, if_false]
      rw [jsMapFind_jsMapStep, if_neg (fun e => h e.symm)]

theorem foldl_keepSome {P V : Type} (g : P → V) (qs : List P) (v : V) :
    qs.foldl (fun o p => some (o.getD (g p))) (some v) = some v := by
  induction qs with
  | nil => rfl
  | cons q qs ih => simpa using ih

theorem foldl_pushSome {A B : Type} (qs : List (A × B)) (l : List A) :
    qs.foldl (fun o p => some (o.getD [] ++ [p.1])) (some l) = some (l ++ qs.map Prod.fst) := by
  induction qs generalizing l with
  | nil => simp
  | cons q qs ih => simp [ih]

theorem foldl_trendSome (qs : List (Platform × String)) (v : Nat × List Platform) :
    qs.foldl (fun o p => some (trendFoldStep (o.getD (0, [])) p)) (some v) =
      some (qs.foldl trendFoldStep v) := by
  induction qs generalizing v with
  | nil => rfl
  | cons q qs ih => simpa using ih _

theorem keys_jsMapStep {P V : Type} (key : P → String) (dflt : P → V) (upd : P → V → V)
    (m : List (String × V)) (p : P) :
    jsMapKeys (jsMapStep key dflt upd m p) =
      if (jsMapFind m (key p)).isSome then jsMapKeys m else jsMapKeys m ++ [key p] := by
  induction m with
  | nil => simp [jsMapStep, jsMapFind, jsMapKeys]
  | cons kv rest ih =>
    obtain ⟨k, v⟩ := kv
    by_cases hk : k = key p
    · simp [jsMapStep, hk, jsMapFind, jsMapKeys]
    · have hk2 : ¬ k = key p := hk
      simp only [jsMapStep, if_neg hk, jsMapFind, jsMapKeys, List.map_cons, if_neg hk2]
      show k :: jsMapKeys (jsMapStep key dflt upd rest p) = _
      rw [ih]
      by_cases hs : (jsMapFind rest (key p)).isSome
      · simp [hs, jsMapKeys]
      · simp [hs, jsMapKeys]

theorem jsMapFind_eq_none_iff {V : Type} (m : List (String × V)) (w : String) :
    jsMapFind m w = none ↔ w ∉ jsMapKeys m := by
  induction m with
  | nil => simp [jsMapFind, jsMapKeys]
  | cons kv rest ih =>
    obtain ⟨k, v⟩ := kv
    by_cases hk : k = w
    · subst hk; simp [jsMapFind, jsMapKeys]
    · have hwk : ¬ w = k := fun e => hk e.symm
      simp [jsMapFind, jsMapKeys, hk, hwk, ih]

theorem nodup_keys_foldl {P V : Type} (key : P → String) (dflt : P → V) (upd : P → V → V)
    (ps : List P) (m : List (String × V)) (h : (jsMapKeys m).Nodup) :
    (jsMapKeys (ps.foldl (jsMapStep key dflt upd) m)).Nodup := by
  induction ps generalizing m with
  | nil => exact h
  | cons p ps ih =>
    rw [List.foldl_cons]
    apply ih
    rw [keys_jsMapStep]
    by_cases hs : (jsMapFind m (key p)).isSome
    · simpa [hs] using h
    · have hn : jsMapFind m (key p) = none := by
        cases hfind : jsMapFind m (key p) with
        | none => rfl
        | some v => rw [hfind] at hs; simp at hs
      have hnm : key p ∉ jsMapKeys m := (jsMapFind_eq_none_iff m (key p)).mp hn
      simp [hs, List.nodup_append, h, hnm]

theorem jsMapFind_of_mem {V : Type} (m : List (String × V)) (h : (jsMapKeys m).Nodup)
    {k : String} {v : V} (hm : (k, v) ∈ m) : jsMapFind m k = some v := by
  induction m with
  | nil => cases hm
  | cons kv rest ih =>
    obtain ⟨k0, v0⟩ := kv
    rcases List.mem_cons.mp hm with heq | htail
    · cases heq; simp [jsMapFind]
    · have hk0 : k0 ≠ k := by
        intro e
        subst e
        have : k0 ∈ jsMapKeys rest := List.mem_map.mpr ⟨(k0, v), htail, rfl⟩
        exact (List.nodup_cons.mp h).1 this
      simp only [jsMapFind, if_neg hk0]
      exact ih (List.nodup_cons.mp h).2 htail

theorem mem_of_jsMapFind {V : Type} (m : List (String × V)) {k : String} {v : V}
    (h : jsMapFind m k = some v) : (k, v) ∈ m := by
  induction m with
  | nil => simp [jsMapFind] at h
  | cons kv rest ih =>
    obtain ⟨k0, v0⟩ := kv
    by_cases hk : k0 = k
    · subst hk
      simp only [jsMapFind, if_pos rfl] at h
      cases h
      exact List.mem_cons_self _ _
    · simp only [jsMapFind, if_neg hk] at h
      exact List.mem_cons_of_mem _ (ih h)

/-! Characterizations of the three concrete map-building folds. -/

theorem foldl_flatMap {α β γ : Type} (g : γ → List α) (f : β → α → β) (l : List γ) (b : β) :
    (l.flatMap g).foldl f b = l.foldl (fun acc c => (g c).foldl f acc) b := by
  induction l generalizing b with
  | nil => rfl
  | cons c l ih => simp [List.flatMap_cons, List.foldl_append, ih]

theorem foldl_keep {α β : Type} (qs : List α) (x : β) :
    qs.foldl (fun acc _ => acc) x = x := by
  induction qs <;> simp_all

theorem foldl_push {α β : Type} (g : α → β) (qs : List α) (l : List β) :
    qs.foldl (fun acc p => acc ++ [g p]) l = l ++ qs.map g := by
  induction qs generalizing l with
  | nil => simp
  | cons q qs ih => simp [ih]

theorem keywordIndex_eq (events : List ActivityEvent) :
    keywordIndex events = (keywordOccurrences events).foldl
      (jsMapStep (fun p : ActivityEvent × String => p.2) (fun _ => [])
        (fun p es => es ++ [p.1])) [] := by
  unfold keywordIndex keywordOccurrences
  rw [foldl_flatMap]
  simp only [List.foldl_map]
  rfl

theorem trendIndex_eq (events : List ActivityEvent) :
    trendIndex events = (trendOccurrences events).foldl
      (jsMapStep (fun p : Platform × String => p.2) (fun _ => (0, []))
        (fun p nv => trendFoldStep nv p)) [] := by
  unfold trendIndex trendOccurrences
  rw [foldl_flatMap]
  simp only [List.foldl_map]
  rfl

theorem find_uniqueEventsMap (events : List ActivityEvent) (k : String) :
    jsMapFind (uniqueEventsMap events) k =
      ((events.filter (fun e => jsEventKey e == k)).head?).map normalizeDefaults := by
  unfold uniqueEventsMap
  rw [jsMapFind_foldl]
  cases hq : events.filter (fun e => jsEventKey e == k) with
  | nil => rfl
  | cons q qs =>
    simp only [List.foldl_cons, jsMapFind, Option.getD_none, List.head?_cons, Option.map_some]
    exact foldl_keepSome _ qs (normalizeDefaults q)

theorem find_keywordIndex (events : List ActivityEvent) (w : String) :
    jsMapFind (keywordIndex events) w =
      if ((keywordOccurrences events).filter (fun p => p.2 == w)).isEmpty then none
      else some (((keywordOccurrences events).filter (fun p => p.2 == w)).map Prod.fst) := by
  rw [keywordIndex_eq, jsMapFind_foldl]
  cases hq : (keywordOccurrences events).filter (fun p => p.2 == w) with
  | nil => rfl
  | cons q qs =>
    simp only [List.foldl_cons, jsMapFind, Option.getD_none, List.isEmpty_cons, List.map_cons]
    rw [foldl_pushSome]
    simp

theorem find_trendIndex (events : List ActivityEvent) (w : String) :
    jsMapFind (trendIndex events) w =
      if ((trendOccurrences events).filter (fun p => p.2 == w)).isEmpty then none
      else some (((trendOccurrences events).filter (fun p => p.2 == w)).foldl
        trendFoldStep (0, [])) := by
  rw [trendIndex_eq, jsMapFind_foldl]
  cases hq : (trendOccurrences events).filter (fun p => p.2 == w) with
  | nil => rfl
  | cons q qs =>
    simp only [List.foldl_cons, jsMapFind, Option.getD_none, List.isEmpty_cons]
    rw [foldl_trendSome]
    simp

theorem trendFold_fst (qs : List (Platform × String)) (nv : Nat × List Platform) :
    (qs.foldl trendFoldStep nv).1 = nv.1 + qs.length := by
  induction qs generalizing nv with
  | nil => simp
  | cons q qs ih => simp [trendFoldStep, ih]; omega

theorem mem_addPlat (cs : List Platform) (ty p : Platform) :
    p ∈ addPlat cs ty ↔ p ∈ cs ∨ p = ty := by
  unfold addPlat
  by_cases h : ty ∈ cs
  · simp only [if_pos h]
    constructor
    · exact fun hp => Or.inl hp
    · rintro (hp | rfl)
      · exact hp
      · exact h
  · simp [if_neg h, List.mem_append]

theorem nodup_addPlat (cs : List Platform) (ty : Platform) (h : cs.Nodup) :
    (addPlat cs ty).Nodup := by
  unfold addPlat
  by_cases hm : ty ∈ cs
  · simpa [hm]
  · simp [hm, List.nodup_append, h]

theorem trendFold_mem (qs : List (Platform × String)) (nv : Nat × List Platform) (p : Platform) :
    p ∈ (qs.foldl trendFoldStep nv).2 ↔ p ∈ nv.2 ∨ p ∈ qs.map Prod.fst := by
  induction qs generalizing nv with
  | nil => simp
  | cons q qs ih =>
    simp only [List.foldl_cons, List.map_cons, List.mem_cons]
    rw [ih]
    simp only [trendFoldStep, mem_addPlat]
    tauto

theorem trendFold_nodup (qs : List (Platform × String)) (nv : Nat × List Platform)
    (h : nv.2.Nodup) : (qs.foldl trendFoldStep nv).2.Nodup := by
  induction qs generalizing nv with
  | nil => exact h
  | cons q qs ih => exact ih _ (nodup_addPlat _ _ h)

theorem length_mem_extractWords (s : String) {w : String} (h : w ∈ extractWords s) :
    4 ≤ w.length := by
  unfold extractWords at h
  obtain ⟨r, hr, rfl⟩ := List.mem_map.mp h
  have := List.of_mem_filter hr
  simpa using this

theorem length_mem_wordsOf (e : ActivityEvent) {w : String} (h : w ∈ wordsOf e) :
    4 ≤ w.length := length_mem_extractWords _ h

theorem mem_trendOccurrences (events : List ActivityEvent) (ty : Platform) (w : String) :
    (ty, w) ∈ trendOccurrences events ↔ ∃ e ∈ events, e.type = ty ∧ w ∈ wordsOf e := by
  unfold trendOccurrences
  simp only [List.mem_flatMap, List.mem_map]
  constructor
  · rintro ⟨e, he, w', hw', heq⟩
    cases heq
    exact ⟨e, he, rfl, hw'⟩
  · rintro ⟨e, he, rfl, hw⟩
    exact ⟨e, he, w, hw, rfl⟩

theorem mem_keywordOccurrences (events : List ActivityEvent) (e : ActivityEvent) (w : String) :
    (e, w) ∈ keywordOccurrences events ↔ e ∈ events ∧ w ∈ wordsOf e := by
  unfold keywordOccurrences
  simp only [List.mem_flatMap, List.mem_map]
  constructor
  · rintro ⟨e', he', w', hw', heq⟩
    cases heq
    exact ⟨he', hw'⟩
  · rintro ⟨he, hw⟩
    exact ⟨e, he, w, hw, rfl⟩

/-! Claim theorems. -/

/-- C9: `cleanup` deletes at most the single context key dated exactly 7
days before now; the value stored under every other key is unchanged, so
there is no ranged purge of older entries. -/
theorem c9_cleanup_frame (deleteFails : Bool) (store : KVStore) (now : Int) :
    (∀ k : KVKey, k ≠ KVKey.context (now - 7) → cleanup deleteFails store now k = store k)
    ∧ (deleteFails = false → cleanup deleteFails store now (KVKey.context (now - 7)) = none) := by
  constructor
  · intro k hk
    unfold cleanup kvDelete
    cases deleteFails <;> simp [hk]
  · rintro rfl
    simp [cleanup, kvDelete]

/-- C9 witness: with a store holding only the context for day 1, cleanup
at day 10 deletes exactly the day-3 context key and leaves the old day-1
entry untouched. -/
theorem c9_cleanup_frame_witness :
    cleanup false storeOld 10 (KVKey.context 1) = some "x"
    ∧ cleanup false storeOld 10 (KVKey.context 3) = none := by
  have h := c9_cleanup_frame false storeOld 10
  exact ⟨(h.1 (KVKey.context 1) (by decide)).trans rfl, h.2 rfl⟩

/-- C4 counterexample: a stored empty-string value fails JSON
deserialization (under `decodeNone` every value does), and `getContext`
does return absent, but no delete is issued for the key: the `if (!data)`
truthiness check returns early because the empty string is falsy.  This
refutes the claim that every stored value failing deserialization
triggers a delete. -/
theorem c4_counterexample :
    decodeNone "" = none
    ∧ storeEmptyVal (KVKey.context 0) = some ""
    ∧ getContext decodeNone false storeEmptyVal 0 = (none, storeEmptyVal, []) :=
  ⟨rfl, rfl, rfl⟩

/-- C4 (amended): every stored non-empty value under a context date key
that fails JSON deserialization or schema validation makes `get` return
absent and issues a delete for that same key; a failing delete changes
nothing about the result and is not raised.  A stored empty-string value
returns absent without any delete. -/
theorem c4_amended_self_healing (decode : String → Option MemoryContext) (deleteFails : Bool)
    (store : KVStore) (day : Int) :
    (∀ data : String, store (KVKey.context day) = some data → data ≠ "" → decode data = none →
      getContext decode deleteFails store day =
        (none, if deleteFails then store else kvDelete store (KVKey.context day),
          [KVKey.context day]))
    ∧ (store (KVKey.context day) = some "" →
        getContext decode deleteFails store day = (none, store, [])) := by
  constructor
  · intro data h1 h2 h3
    unfold getContext
    rw [h1]
    simp [h2, h3]
  · intro h1
    unfold getContext
    rw [h1]
    simp

/-- C4 witness: a non-empty corrupt value is treated as absent and its key
is deleted. -/
theorem c4_amended_witness :
    getContext decodeNone false storeBadVal 0 =
      (none, kvDelete storeBadVal (KVKey.context 0), [KVKey.context 0]) :=
  (c4_amended_self_healing decodeNone false storeBadVal 0).1 "bad" rfl (by decide) rfl

/-- C1 counterexample: with a code-review PR event whose description
contains `fixes TRK-42` and a tracker event whose metadata identifier is
`TRK-42`, the identifier-matching pass emits no correlation at all (the
reference regex only recognizes the `lin`/`linear` prefixes), refuting
the claimed `exactly one Correlation with confidence 0.8`. -/
theorem c1_counterexample :
    findPRLinearCorrelations [prEventTrk] [linearEventTrk] = []
    ∧ jsIncludes (eventText prEventTrk) "fixes TRK-42" = true
    ∧ linearEventTrk.metadata.bind (fun m => m.identifier) = some "TRK-42" :=
  ⟨rfl, by decide, rfl⟩

/-- C1 (amended): for the tracker prefix the code actually recognizes, a
batch with a code-review event whose description is `fixes LIN-42` and a
tracker event whose identifier is `LIN-42` yields exactly one
code-to-tracker Correlation linking the two, with confidence exactly 0.8
and keywords equal to the extracted (matched) reference strings. -/
theorem c1_amended_scenario (gid lid : String) (ts1 ts2 : Int) :
    findPRLinearCorrelations [prEventLin gid ts1] [linearEventLin lid ts2] =
      [{ id := "pr_linear_" ++ gid ++ "_" ++ lid
         events := [gid, lid]
         type := .pr_to_linear
         confidence := 0.8
         description := "PR undefined relates to Linear issue LIN-42"
         keywords := ["lin-42"] }] := rfl

/-- C10: for a tracker event whose metadata has neither `identifier` nor
`issue_id`, the effective identifier is the empty string, and the
case-insensitive substring check succeeds against every extracted
reference, so a code-to-tracker correlation pairing it with every
reference-bearing PR event is emitted. -/
theorem c10_empty_identifier_matches (githubEvents linearEvents : List ActivityEvent)
    (prEvent linearEvent : ActivityEvent)
    (hpr : prEvent ∈ githubEvents) (hsub : jsIncludes prEvent.subtype "pr" = true)
    (hlin : linearEvent ∈ linearEvents)
    (hid : linearEvent.metadata.bind (fun m => m.identifier) = none)
    (hiss : linearEvent.metadata.bind (fun m => m.issue_id) = none)
    (hrefs : extractLinearRefs (lowerStr (eventText prEvent)) ≠ []) :
    linearIdLower linearEvent = ""
    ∧ mkPrLinearCorrelation prEvent linearEvent
        (extractLinearRefs (lowerStr (eventText prEvent)))
        (extractLinearUrls (lowerStr (eventText prEvent)))
      ∈ findPRLinearCorrelations githubEvents linearEvents := by
  have hopt : linearIdOpt linearEvent = none := by
    unfold linearIdOpt
    cases hm : linearEvent.metadata with
    | none => rfl
    | some m =>
      rw [hm] at hid hiss
      simp only [Option.some_bind] at hid hiss
      simp [jsOrStrOpt, hid, hiss, strTruthy]
  have hlower : linearIdLower linearEvent = "" := by
    simp [linearIdLower, hopt]
  refine ⟨hlower, ?_⟩
  have href : isReferencedBy (extractLinearRefs (lowerStr (eventText prEvent)))
      (extractLinearUrls (lowerStr (eventText prEvent))) linearEvent = true := by
    unfold isReferencedBy
    cases hr : extractLinearRefs (lowerStr (eventText prEvent)) with
    | nil => exact absurd hr hrefs
    | cons r rs =>
      rw [hlower]
      simp [jsIncludes_empty]
  unfold findPRLinearCorrelations
  apply List.mem_flatMap.mpr
  refine ⟨prEvent, List.mem_filter.mpr ⟨hpr, hsub⟩, ?_⟩
  apply List.mem_filterMap.mpr
  refine ⟨linearEvent, hlin, ?_⟩
  simp only [href, if_true]

/-- C10 witness: the scenario instantiated with a PR referencing `LIN-42`
and a tracker event with empty metadata. -/
theorem c10_empty_identifier_matches_witness :
    mkPrLinearCorrelation (prEventLin "g1" 0) linearEventNoId
        (extractLinearRefs (lowerStr (eventText (prEventLin "g1" 0))))
        (extractLinearUrls (lowerStr (eventText (prEventLin "g1" 0))))
      ∈ findPRLinearCorrelations [prEventLin "g1" 0] [linearEventNoId] :=
  (c10_empty_identifier_matches [prEventLin "g1" 0] [linearEventNoId]
    (prEventLin "g1" 0) linearEventNoId (List.mem_singleton.mpr rfl) (by decide)
    (List.mem_singleton.mpr rfl) rfl rfl (by decide)).2

theorem confidence_of_mem_findPRLinear {gh lin : List ActivityEvent} {c : Correlation}
    (h : c ∈ findPRLinearCorrelations gh lin) : c.confidence = 0.8 := by
  unfold findPRLinearCorrelations at h
  obtain ⟨pe, _, hc⟩ := List.mem_flatMap.mp h
  obtain ⟨le, _, heq⟩ := List.mem_filterMap.mp hc
  by_cases hr : isReferencedBy (extractLinearRefs (lowerStr (eventText pe)))
      (extractLinearUrls (lowerStr (eventText pe))) le = true
  · rw [if_pos hr] at heq
    cases heq
    rfl
  · rw [if_neg hr] at heq
    cases heq

theorem confidence_of_mem_findSlackGithub {slack gh : List ActivityEvent}
    {response : List SlackGithubRef} {c : Correlation}
    (h : c ∈ findSlackGithubCorrelations slack gh response) :
    ∃ r ∈ response, c.confidence = r.confidence := by
  unfold findSlackGithubCorrelations at h
  by_cases hs : slack.isEmpty = true
  · rw [if_pos hs] at h
    cases h
  · rw [if_neg hs] at h
    obtain ⟨r, hr, hc⟩ := List.mem_flatMap.mp h
    obtain ⟨g, _, heq⟩ := List.mem_map.mp hc
    exact ⟨r, hr, by rw [← heq]⟩

theorem mem_findCrossPlatform {now : Int} {events : List ActivityEvent} {c : Correlation}
    (h : c ∈ findCrossPlatformDiscussions now events) :
    ∃ p ∈ (keywordIndex events).filter crossPlatformThreshold,
      c = mkCrossPlatformCorrelation now p.1 p.2 := by
  unfold findCrossPlatformDiscussions at h
  have h2 := List.take_subset _ _ h
  obtain ⟨p, hp, heq⟩ := List.mem_map.mp h2
  exact ⟨p, hp, heq.symm⟩

/-- C7: every correlation emitted by any of the three passes of
`findCorrelations` has confidence in the closed interval `[0, 1]`,
provided the Text-Intelligence response respects its zod schema bound
`confidence ∈ [0, 1]`. -/
theorem c7_confidence_bounds (events : List ActivityEvent) (response : List SlackGithubRef)
    (now : Int) (hresp : ∀ r ∈ response, 0 ≤ r.confidence ∧ r.confidence ≤ 1) :
    ∀ c ∈ findCorrelations events response now, 0 ≤ c.confidence ∧ c.confidence ≤ 1 := by
  intro c hc
  unfold findCorrelations at hc
  rcases List.mem_append.mp hc with h12 | h3
  · rcases List.mem_append.mp h12 with h1 | h2
    · rw [confidence_of_mem_findPRLinear h1]
      norm_num
    · obtain ⟨r, hr, he⟩ := confidence_of_mem_findSlackGithub h2
      rw [he]
      exact hresp r hr
  · obtain ⟨p, _, rfl⟩ := mem_findCrossPlatform h3
    unfold mkCrossPlatformCorrelation
    constructor
    · apply le_min
      · norm_num
      · positivity
    · exact le_trans (min_le_left _ _) (by norm_num)

/-- C7 witness: the scenario-B-style batch yields a pass-1 correlation,
and the theorem bounds its confidence. -/
theorem c7_confidence_bounds_witness :
    0 ≤ (mkPrLinearCorrelation (prEventLin "g1" 0) (linearEventLin "l1" 0)
        (extractLinearRefs (lowerStr (eventText (prEventLin "g1" 0))))
        (extractLinearUrls (lowerStr (eventText (prEventLin "g1" 0))))).confidence
    ∧ (mkPrLinearCorrelation (prEventLin "g1" 0) (linearEventLin "l1" 0)
        (extractLinearRefs (lowerStr (eventText (prEventLin "g1" 0))))
        (extractLinearUrls (lowerStr (eventText (prEventLin "g1" 0))))).confidence ≤ 1 := by
  apply c7_confidence_bounds [prEventLin "g1" 0, linearEventLin "l1" 0] [] 0
  · intro r hr
    exact absurd hr (List.not_mem_nil r)
  · have he : findCorrelations [prEventLin "g1" 0, linearEventLin "l1" 0] [] 0 =
        [mkPrLinearCorrelation (prEventLin "g1" 0) (linearEventLin "l1" 0)
          (extractLinearRefs (lowerStr (eventText (prEventLin "g1" 0))))
          (extractLinearUrls (lowerStr (eventText (prEventLin "g1" 0))))] := rfl
    rw [he]
    exact List.mem_singleton.mpr rfl

/-- C3 counterexample: with one GitHub event whose text contains `alpha`
twice and one Slack event containing it once, the pass emits a
correlation for `alpha` although only two distinct events contain the
keyword — each event is counted once per occurrence, not once per event.
This refutes the claimed `at least 3 events in the keyword's event set`
condition. -/
theorem c3_counterexample :
    (findCrossPlatformDiscussions 0 [evAlpha1, evAlpha2]).map (fun c => c.keywords) = [["alpha"]]
    ∧ ([evAlpha1, evAlpha2].filter (fun e => decide ("alpha" ∈ wordsOf e))).length = 2 :=
  ⟨rfl, rfl⟩

/-- C3 (amended): the cross-platform pass emits one correlation per
keyword whose occurrence list (one entry per occurrence of the keyword in
an event's title+description, so an event can be counted twice) spans at
least 2 distinct platforms and has at least 3 entries; each correlation
has confidence `min(0.9, occurrenceCount/10)` and carries the keyword;
the output is the first 10 passing keywords in insertion order. -/
theorem c3_amended_cross_platform_spec (now : Int) (events : List ActivityEvent) :
    (findCrossPlatformDiscussions now events).length ≤ 10
    ∧ (∀ c ∈ findCrossPlatformDiscussions now events,
        ∃ p ∈ keywordIndex events,
          2 ≤ (platformsOfEvents p.2).length ∧ 3 ≤ p.2.length
          ∧ c = mkCrossPlatformCorrelation now p.1 p.2
          ∧ c.confidence = min (0.9 : ℚ) ((p.2.length : ℚ) / 10)
          ∧ c.keywords = [p.1])
    ∧ (∀ p ∈ ((keywordIndex events).filter crossPlatformThreshold).take 10,
        mkCrossPlatformCorrelation now p.1 p.2 ∈ findCrossPlatformDiscussions now events) := by
  refine ⟨?_, ?_, ?_⟩
  · unfold findCrossPlatformDiscussions
    exact List.length_take_le 10 _
  · intro c hc
    obtain ⟨p, hp, rfl⟩ := mem_findCrossPlatform hc
    have hmem := (List.mem_filter.mp hp).1
    have hth := (List.mem_filter.mp hp).2
    unfold crossPlatformThreshold at hth
    rw [Bool.and_eq_true, decide_eq_true_eq, decide_eq_true_eq] at hth
    exact ⟨p, hmem, hth.1, hth.2, rfl, rfl, rfl⟩
  · intro p hp
    unfold findCrossPlatformDiscussions
    rw [← List.map_take]
    exact List.mem_map_of_mem _ hp

/-- C3 witness: the `alpha` keyword entry passes the threshold and its
correlation is emitted. -/
theorem c3_amended_witness :
    mkCrossPlatformCorrelation 0 "alpha" [evAlpha1, evAlpha1, evAlpha2]
      ∈ findCrossPlatformDiscussions 0 [evAlpha1, evAlpha2] :=
  (c3_amended_cross_platform_spec 0 [evAlpha1, evAlpha2]).2.2
    ("alpha", [evAlpha1, evAlpha1, evAlpha2]) (by decide)

/-- C6: trending-topic extraction returns at most 10 entries, sorted
descending by frequency, each with frequency strictly above 2, keyword
length at least 4, and contexts equal (as a duplicate-free set) to the
distinct platforms of the events containing the keyword. -/
theorem c6_trending_topics_spec (data : ProcessedData) :
    (extractTrendingTopics data).length ≤ 10
    ∧ List.Pairwise (fun a b => b.frequency ≤ a.frequency) (extractTrendingTopics data)
    ∧ ∀ t ∈ extractTrendingTopics data,
        2 < t.frequency ∧ 4 ≤ t.keyword.length ∧ t.contexts.Nodup
        ∧ ∀ p : Platform,
            (p ∈ t.contexts ↔ ∃ e ∈ data.events, t.keyword ∈ wordsOf e ∧ e.type = p) := by
  refine ⟨?_, ?_, ?_⟩
  · unfold extractTrendingTopics
    rw [List.length_map]
    exact List.length_take_le 10 _
  · unfold extractTrendingTopics
    apply List.pairwise_map.mpr
    exact List.Pairwise.sublist (List.take_sublist _ _) (List.sorted_insertionSort freqDesc _)
  · intro t ht
    unfold extractTrendingTopics at ht
    obtain ⟨q, hqTake, rfl⟩ := List.mem_map.mp ht
    have hqSort := List.take_subset _ _ hqTake
    have hqFilt := (List.perm_insertionSort freqDesc _).mem_iff.mp hqSort
    have hfreq : 2 < q.2.1 := by
      have := List.of_mem_filter hqFilt
      simpa using this
    have hqIdx : q ∈ trendIndex data.events := (List.mem_filter.mp hqFilt).1
    have hkeys : (jsMapKeys (trendIndex data.events)).Nodup := by
      rw [trendIndex_eq]
      exact nodup_keys_foldl _ _ _ _ [] (by simp [jsMapKeys])
    have hqPair : (q.1, q.2) ∈ trendIndex data.events := by simpa using hqIdx
    have hfind := jsMapFind_of_mem _ hkeys hqPair
    rw [find_trendIndex] at hfind
    by_cases he : ((trendOccurrences data.events).filter (fun o => o.2 == q.1)).isEmpty = true
    · rw [if_pos he] at hfind
      cases hfind
    · rw [if_neg he] at hfind
      have hv : q.2 = ((trendOccurrences data.events).filter (fun o => o.2 == q.1)).foldl
          trendFoldStep (0, []) :=
        (Option.some.inj hfind).symm
      have hne : (trendOccurrences data.events).filter (fun o => o.2 == q.1) ≠ [] := by
        intro hnil
        rw [hnil] at he
        exact he rfl
      obtain ⟨o0, ho0⟩ := List.exists_mem_of_ne_nil _ hne
      have ho0occ := (List.mem_filter.mp ho0).1
      have ho0key : o0.2 = q.1 := by
        have := (List.mem_filter.mp ho0).2
        simpa using this
      have hword : ∃ e ∈ data.events, e.type = o0.1 ∧ q.1 ∈ wordsOf e := by
        have := (mem_trendOccurrences data.events o0.1 o0.2).mp (by simpa using ho0occ)
        rw [ho0key] at this
        exact this
      refine ⟨hfreq, ?_, ?_, ?_⟩
      · obtain ⟨e, _, _, hw⟩ := hword
        exact length_mem_wordsOf e hw
      · show q.2.2.Nodup
        rw [hv]
        exact trendFold_nodup _ _ (by simp)
      · intro p
        show p ∈ q.2.2 ↔ _
        rw [hv, trendFold_mem]
        simp only [List.not_mem_nil, false_or]
        constructor
        · intro hp
          obtain ⟨o, ho, hfst⟩ := List.mem_map.mp hp
          have hoocc := (List.mem_filter.mp ho).1
          have hokey : o.2 = q.1 := by
            have := (List.mem_filter.mp ho).2
            simpa using this
          have := (mem_trendOccurrences data.events o.1 o.2).mp (by simpa using hoocc)
          obtain ⟨e, he2, hty, hw⟩ := this
          rw [hokey] at hw
          exact ⟨e, he2, hw, by rw [hty, hfst]⟩
        · rintro ⟨e, he2, hw, hty⟩
          apply List.mem_map.mpr
          refine ⟨(p, q.1), List.mem_filter.mpr ⟨?_, by simp⟩, rfl⟩
          exact (mem_trendOccurrences data.events p q.1).mpr ⟨e, he2, hty.symm ▸ rfl, hw⟩

/-- C6 witness: three `deployment` events on three platforms yield the
trending entry with frequency 3 and keyword of length 10. -/
theorem c6_trending_topics_witness :
    2 < (⟨"deployment", 3, [Platform.github, Platform.slack, Platform.linear]⟩ :
          TrendingTopic).frequency
    ∧ 4 ≤ (⟨"deployment", 3, [Platform.github, Platform.slack, Platform.linear]⟩ :
          TrendingTopic).keyword.length := by
  have h := (c6_trending_topics_spec depData).2.2
    (⟨"deployment", 3, [Platform.github, Platform.slack, Platform.linear]⟩ : TrendingTopic)
    (by decide)
  exact ⟨h.1, h.2.1⟩

theorem getContext_fst (decode : String → Option MemoryContext) (deleteFails : Bool)
    (store : KVStore) (day : Int) :
    (getContext decode deleteFails store day).1 =
      (store (KVKey.context day)).bind
        (fun data => if data = "" then none else decode data) := by
  unfold getContext
  cases store (KVKey.context day) with
  | none => rfl
  | some data =>
    by_cases h : data = ""
    · simp [h]
    · cases hd : decode data <;> simp [h, hd]

theorem getContext_store_frame (decode : String → Option MemoryContext) (deleteFails : Bool)
    (store : KVStore) (day : Int) (k : KVKey) (hk : k ≠ KVKey.context day) :
    (getContext decode deleteFails store day).2.1 k = store k := by
  unfold getContext
  cases store (KVKey.context day) with
  | none => rfl
  | some data =>
    by_cases h : data = ""
    · simp [h]
    · cases hd : decode data with
      | some ctx => simp [h, hd]
      | none => cases deleteFails <;> simp [h, hd, kvDelete, hk]

theorem scanForProfile_eq_findSome (decode : String → Option MemoryContext)
    (deleteFails : Bool) (base : KVStore) (cid : String) :
    ∀ (ds : List Int) (store : KVStore),
      (∀ d ∈ ds, store (KVKey.context d) = base (KVKey.context d)) → ds.Nodup →
      scanForProfile decode deleteFails store ds cid =
        ds.findSome? (fun d => profileAt decode deleteFails base d cid) := by
  intro ds
  induction ds with
  | nil => intro store _ _; rfl
  | cons d ds ih =>
    intro store hagree hnodup
    have hd : store (KVKey.context d) = base (KVKey.context d) :=
      hagree d (List.mem_cons_self _ _)
    have hfst : (getContext decode deleteFails store d).1 =
        (getContext decode deleteFails base d).1 := by
      rw [getContext_fst, getContext_fst, hd]
    have hrec : ∀ res, scanForProfile decode deleteFails
        (getContext decode deleteFails store d).2.1 ds cid = res →
        scanForProfile decode deleteFails store (d :: ds) cid =
          match (getContext decode deleteFails store d).1 with
          | some ctx =>
            (match jsMapFind ctx.contributor_profiles cid with
             | some p => some p
             | none => res)
          | none => res := by
      intro res hres
      conv_lhs => rw [scanForProfile]
      rw [hres]
    have hagree2 : ∀ d2 ∈ ds, (getContext decode deleteFails store d).2.1 (KVKey.context d2) =
        base (KVKey.context d2) := by
      intro d2 hd2
      have hne : KVKey.context d2 ≠ KVKey.context d := by
        intro he
        apply (List.nodup_cons.mp hnodup).1
        have : d2 = d := by
          cases he
          rfl
        rw [← this]
        exact hd2
      rw [getContext_store_frame decode deleteFails store d _ hne]
      exact hagree d2 (List.mem_cons_of_mem _ hd2)
    have htail := ih ((getContext decode deleteFails store d).2.1) hagree2
      (List.nodup_cons.mp hnodup).2
    rw [hrec _ htail, List.findSome?_cons]
    unfold profileAt
    rw [hfst]
    cases (getContext decode deleteFails base d).1 with
    | none => rfl
    | some ctx =>
      simp only [Option.some_bind]
      cases jsMapFind ctx.contributor_profiles cid <;> rfl

/-- C8: `recallProfile` scans exactly the 7 most recent calendar dates,
today backward; it returns the first scanned date's stored profile for
the contributor and absent when no scanned date holds one — in
particular, a profile stored only under an older date is not returned. -/
theorem c8_recall_profile_spec (decode : String → Option MemoryContext) (deleteFails : Bool)
    (store : KVStore) (now : Int) (cid : String) :
    getRecentDates now 7 = [now, now - 1, now - 2, now - 3, now - 4, now - 5, now - 6]
    ∧ getContributorProfile decode deleteFails store now cid =
        (getRecentDates now 7).findSome? (fun d => profileAt decode deleteFails store d cid)
    ∧ ((∀ d ∈ getRecentDates now 7, profileAt decode deleteFails store d cid = none) →
        getContributorProfile decode deleteFails store now cid = none) := by
  have hdates : getRecentDates now 7 =
      [now, now - 1, now - 2, now - 3, now - 4, now - 5, now - 6] := by
    show (List.range 7).map (fun i => now - (i : Int)) = _
    rw [show List.range 7 = [0, 1, 2, 3, 4, 5, 6] from rfl]
    norm_num
  have hnodup : (getRecentDates now 7).Nodup := by
    rw [hdates]
    simp only [List.nodup_cons, List.mem_cons, List.not_mem_nil, or_false, List.nodup_nil,
      not_or, and_true]
    norm_num
    omega
  have hmain : getContributorProfile decode deleteFails store now cid =
      (getRecentDates now 7).findSome? (fun d => profileAt decode deleteFails store d cid) :=
    scanForProfile_eq_findSome decode deleteFails store cid (getRecentDates now 7) store
      (fun _ _ => rfl) hnodup
  refine ⟨hdates, hmain, ?_⟩
  intro hall
  rw [hmain]
  exact List.findSome?_eq_none_iff.mpr hall

/-- C8 witness: a profile stored under day 5 is found when `now = 7`
(inside the 7-date window) and not found when `now = 20` (more than 7
days later). -/
theorem c8_recall_profile_witness :
    getContributorProfile decodeAlice false storeAlice 20 "alice" = none
    ∧ getContributorProfile decodeAlice false storeAlice 7 "alice" = some profAlice := by
  constructor
  · apply (c8_recall_profile_spec decodeAlice false storeAlice 20 "alice").2.2
    intro d hd
    rw [(c8_recall_profile_spec decodeAlice false storeAlice 20 "alice").1] at hd
    simp only [List.mem_cons, List.not_mem_nil, or_false] at hd
    rcases hd with rfl | rfl | rfl | rfl | rfl | rfl | rfl <;> rfl
  · rw [(c8_recall_profile_spec decodeAlice false storeAlice 7 "alice").2.1]
    rfl

theorem find?_eq_head?_filter {α : Type} (p : α → Bool) (l : List α) :
    l.find? p = (l.filter p).head? := by
  induction l with
  | nil => rfl
  | cons a l ih =>
    cases hp : p a
    · rw [List.find?_cons_of_neg _ (by simp [hp]), List.filter_cons_of_neg (by simp [hp]), ih]
    · rw [List.find?_cons_of_pos _ hp, List.filter_cons_of_pos hp, List.head?_cons]

theorem jsEventKey_normalizeDefaults (e : ActivityEvent) :
    jsEventKey (normalizeDefaults e) = jsEventKey e := rfl

theorem filter_key_singleton {V : Type} (m : List (String × V)) (hn : (jsMapKeys m).Nodup)
    {k : String} {v : V} (hf : jsMapFind m k = some v) :
    m.filter (fun kv => kv.1 == k) = [(k, v)] := by
  induction m with
  | nil => simp [jsMapFind] at hf
  | cons kv rest ih =>
    obtain ⟨k0, v0⟩ := kv
    by_cases hk : k0 = k
    · subst hk
      simp only [jsMapFind, if_pos rfl] at hf
      cases hf
      have hnm : k0 ∉ jsMapKeys rest := (List.nodup_cons.mp hn).1
      have hfe : rest.filter (fun kv => kv.1 == k0) = [] := by
        apply List.filter_eq_nil_iff.mpr
        intro kv hkv
        simp only [beq_iff_eq]
        intro he
        apply hnm
        exact List.mem_map.mpr ⟨kv, hkv, he⟩
      rw [List.filter_cons_of_pos (by simp), hfe]
    · simp only [jsMapFind, if_neg hk] at hf
      rw [List.filter_cons_of_neg (by simp [hk])]
      exact ih (List.nodup_cons.mp hn).2 hf

theorem key_of_mem_uniqueEventsMap {events : List ActivityEvent} {k : String}
    {v : ActivityEvent} (h : (k, v) ∈ uniqueEventsMap events) : jsEventKey v = k := by
  have hn : (jsMapKeys (uniqueEventsMap events)).Nodup := by
    unfold uniqueEventsMap
    exact nodup_keys_foldl _ _ _ _ [] (by simp [jsMapKeys])
  have hf := jsMapFind_of_mem _ hn h
  rw [find_uniqueEventsMap] at hf
  cases hq : (events.filter (fun e => jsEventKey e == k)).head? with
  | none => rw [hq] at hf; cases hf
  | some q =>
    rw [hq] at hf
    have hv : v = normalizeDefaults q := by
      cases hf
      rfl
    have hqmem : q ∈ events.filter (fun e => jsEventKey e == k) := List.mem_of_mem_head? hq
    have hqk : jsEventKey q = k := by
      have := List.of_mem_filter hqmem
      simpa using this
    rw [hv, jsEventKey_normalizeDefaults, hqk]

/-- C2 counterexample: the two events have distinct dedup tuples
`(platform, subtype, author.id, timestamp)` but the same concatenated
string key, so normalization keeps only the first — refuting `exactly one
event per distinct (platform, subtype, author.id, timestamp) key`. -/
theorem c2_counterexample :
    normalizeEvents [evSubA, evSubB] = [normalizeDefaults evSubA]
    ∧ (evSubA.type, evSubA.subtype, evSubA.author.id, evSubA.timestamp)
      ≠ (evSubB.type, evSubB.subtype, evSubB.author.id, evSubB.timestamp) :=
  ⟨rfl, by decide⟩

/-- C2 (amended): `normalizeEvents` keeps, per distinct concatenated
string key `type_subtype_authorId_timestamp`, exactly the first input
event bearing that key (with defaults applied); every output event is a
defaulted input event (hence has non-absent labels, assignees and
metadata); and the output is ordered by timestamp descending. -/
theorem c2_amended_normalize_spec (events : List ActivityEvent) :
    (∀ (k : String) (e0 : ActivityEvent),
      events.find? (fun e => jsEventKey e == k) = some e0 →
      (normalizeEvents events).filter (fun e => jsEventKey e == k) = [normalizeDefaults e0])
    ∧ (∀ e2 ∈ normalizeEvents events, ∃ e ∈ events, e2 = normalizeDefaults e)
    ∧ (∀ e2 ∈ normalizeEvents events,
        e2.labels.isSome ∧ e2.assignees.isSome ∧ e2.metadata.isSome)
    ∧ List.Pairwise (fun a b => b.timestamp ≤ a.timestamp) (normalizeEvents events) := by
  have hnodup : (jsMapKeys (uniqueEventsMap events)).Nodup := by
    unfold uniqueEventsMap
    exact nodup_keys_foldl _ _ _ _ [] (by simp [jsMapKeys])
  have hprov : ∀ e2 ∈ normalizeEvents events, ∃ e ∈ events, e2 = normalizeDefaults e := by
    intro e2 he2
    have hval : e2 ∈ (uniqueEventsMap events).map Prod.snd :=
      (List.perm_insertionSort tsDesc _).mem_iff.mp he2
    obtain ⟨kv, hkv, hsnd⟩ := List.mem_map.mp hval
    obtain ⟨k0, v0⟩ := kv
    have hfind := jsMapFind_of_mem _ hnodup hkv
    rw [find_uniqueEventsMap] at hfind
    cases hq : (events.filter (fun e => jsEventKey e == k0)).head? with
    | none => rw [hq] at hfind; cases hfind
    | some q =>
      rw [hq] at hfind
      have hv : v0 = normalizeDefaults q := by
        cases hfind
        rfl
      have hqmem : q ∈ events :=
        (List.filter_sublist _).subset (List.mem_of_mem_head? hq)
      exact ⟨q, hqmem, by rw [← hsnd, hv]⟩
  refine ⟨?_, hprov, ?_, ?_⟩
  · intro k e0 hfind0
    have hhead : (events.filter (fun e => jsEventKey e == k)).head? = some e0 := by
      rw [← find?_eq_head?_filter]
      exact hfind0
    have hmapfind : jsMapFind (uniqueEventsMap events) k = some (normalizeDefaults e0) := by
      rw [find_uniqueEventsMap, hhead]
      rfl
    have hfiltpairs : (uniqueEventsMap events).filter (fun kv => kv.1 == k) =
        [(k, normalizeDefaults e0)] := filter_key_singleton _ hnodup hmapfind
    have hstep1 : ((uniqueEventsMap events).map Prod.snd).filter
        (fun e => jsEventKey e == k) = [normalizeDefaults e0] := by
      rw [List.filter_map]
      have hcongr : (uniqueEventsMap events).filter
            ((fun e => jsEventKey e == k) ∘ Prod.snd) =
          (uniqueEventsMap events).filter (fun kv => kv.1 == k) := by
        apply List.filter_congr
        intro kv hkv
        obtain ⟨k1, v1⟩ := kv
        have : jsEventKey v1 = k1 := key_of_mem_uniqueEventsMap hkv
        simp [Function.comp, this]
      rw [hcongr, hfiltpairs]
      rfl
    have hperm : ((normalizeEvents events).filter (fun e => jsEventKey e == k)).Perm
        [normalizeDefaults e0] := by
      rw [← hstep1]
      exact (List.perm_insertionSort tsDesc _).filter _
    exact List.perm_singleton.mp hperm
  · intro e2 he2
    obtain ⟨e, _, rfl⟩ := hprov e2 he2
    simp [normalizeDefaults]
  · have hsorted := List.sorted_insertionSort tsDesc ((uniqueEventsMap events).map Prod.snd)
    exact hsorted

/-- C2 witness: the colliding pair filtered by its shared string key. -/
theorem c2_amended_normalize_witness :
    (normalizeEvents [evSubA, evSubB]).filter
      (fun e => jsEventKey e == "github_a_b_c_0") = [normalizeDefaults evSubA] :=
  (c2_amended_normalize_spec [evSubA, evSubB]).1 "github_a_b_c_0" evSubA (by decide)

theorem history_foldl_profiles (l : List ContributorProfile) (c : MemoryContext) :
    (l.foldl (fun c p =>
      { c with contributor_profiles := jsMapSet c.contributor_profiles p.id p }) c).action_items_history
      = c.action_items_history := by
  induction l generalizing c with
  | nil => rfl
  | cons p l ih => rw [List.foldl_cons, ih]

theorem history_updateProjectRelationships (data : ProcessedData) :
    ∀ c : MemoryContext,
      (updateProjectRelationships c data).action_items_history = c.action_items_history := by
  unfold updateProjectRelationships
  generalize data.events = l
  induction l with
  | nil => intro c; rfl
  | cons e l ih =>
    intro c
    rw [List.foldl_cons, ih]
    dsimp only
    split_ifs <;> rfl

/-- C5 counterexample: a pre-existing stored context with an 8-entry
history is left untouched by an update to a different date, so `every
stored MemoryContext has history length at most 7` fails for an arbitrary
initial store. -/
theorem c5_counterexample :
    runUpdates vstore8 [(emptyPD, 1)] 0 = some ctx8
    ∧ 7 < ctx8.action_items_history.length :=
  ⟨rfl, by decide⟩

/-- C5 (amended): each `update` call appends exactly one history entry
and trims to the last 7 (oldest first), so the written context's history
has length `min (old + 1) 7`; consequently, from any initial store whose
stored contexts all satisfy the bound (in particular the empty store),
every stored context still satisfies `length ≤ 7` after any finite
sequence of sequential updates. -/
theorem c5_amended_history_invariant :
    (∀ (vstore : VStore) (data : ProcessedData) (day : Int) (c : MemoryContext),
      updateDailyContext vstore data day day = some c →
        c.action_items_history =
          jsSliceLast7 (((vstore day).getD (createEmptyContext day)).action_items_history
            ++ [mkHistoryEntry data day])
        ∧ c.action_items_history.length =
            min (((vstore day).getD (createEmptyContext day)).action_items_history.length + 1) 7)
    ∧ (∀ (vstore : VStore) (calls : List (ProcessedData × Int)),
        (∀ (d : Int) (c : MemoryContext), vstore d = some c →
          c.action_items_history.length ≤ 7) →
        ∀ (d : Int) (c : MemoryContext), runUpdates vstore calls d = some c →
          c.action_items_history.length ≤ 7) := by
  have hupd : ∀ (vstore : VStore) (data : ProcessedData) (day : Int) (c : MemoryContext),
      updateDailyContext vstore data day day = some c →
      c.action_items_history =
        jsSliceLast7 (((vstore day).getD (createEmptyContext day)).action_items_history
          ++ [mkHistoryEntry data day]) := by
    intro vstore data day c h
    unfold updateDailyContext at h
    simp only [if_pos rfl] at h
    have hc := Option.some.inj h
    rw [← hc]
    show jsSliceLast7 (_ ++ [mkHistoryEntry data day]) = _
    rw [history_updateProjectRelationships data, history_foldl_profiles]
  have hlen : ∀ (l : List HistoryEntry) (x : HistoryEntry),
      (jsSliceLast7 (l ++ [x])).length = min (l.length + 1) 7 := by
    intro l x
    unfold jsSliceLast7
    rw [List.length_drop, List.length_append]
    simp only [List.length_cons, List.length_nil]
    omega
  have hA : ∀ (vstore : VStore) (data : ProcessedData) (day : Int) (c : MemoryContext),
      updateDailyContext vstore data day day = some c →
      c.action_items_history =
        jsSliceLast7 (((vstore day).getD (createEmptyContext day)).action_items_history
          ++ [mkHistoryEntry data day])
      ∧ c.action_items_history.length =
          min (((vstore day).getD (createEmptyContext day)).action_items_history.length + 1)
            7 := by
    intro vstore data day c h
    have h1 := hupd vstore data day c h
    exact ⟨h1, by rw [h1, hlen]⟩
  refine ⟨hA, ?_⟩
  intro vstore calls
  induction calls generalizing vstore with
  | nil => intro hinv d c h; exact hinv d c h
  | cons call calls ih =>
    intro hinv d c h
    apply ih (updateDailyContext vstore call.1 call.2) ?_ d c h
    intro d2 c2 h2
    by_cases hd : d2 = call.2
    · have h2b : updateDailyContext vstore call.1 call.2 call.2 = some c2 := by
        rw [hd] at h2; exact h2
      have := (hA vstore call.1 call.2 c2 h2b).2
      omega
    · have hframe : updateDailyContext vstore call.1 call.2 d2 = vstore d2 := by
        unfold updateDailyContext
        simp only [if_neg hd]
      rw [hframe] at h2
      exact hinv d2 c2 h2

/-- C5 witness: one update on the empty store writes a context whose
history is the single new entry, of length `min (0 + 1) 7 = 1`. -/
theorem c5_amended_history_witness :
    (⟨0, [], [], [], ⟨0, 0, 0, 0⟩, [⟨0, 0, 0, 0⟩]⟩ : MemoryContext).action_items_history =
      jsSliceLast7 ((((fun _ => none : VStore) 0).getD
          (createEmptyContext 0)).action_items_history ++ [mkHistoryEntry emptyPD 0])
    ∧ (⟨0, [], [], [], ⟨0, 0, 0, 0⟩, [⟨0, 0, 0, 0⟩]⟩ :
        MemoryContext).action_items_history.length ≤ 7 := by
  constructor
  · exact (c5_amended_history_invariant.1 (fun _ => none) emptyPD 0
      (⟨0, [], [], [], ⟨0, 0, 0, 0⟩, [⟨0, 0, 0, 0⟩]⟩ : MemoryContext) rfl).1
  · apply c5_amended_history_invariant.2 (fun _ => none) [(emptyPD, 0)]
      (fun d c h => absurd h (by simp)) 0
    rfl
